import Mathlib

/-!
Verification of the aggregation and export pipeline of the Last War
screenshot-extraction tool.

The TypeScript sources are shallowly embedded below:
  - namespace DataProcessor   models src/processors/dataProcessor.ts
  - namespace FileSystemUtils models src/utils/fileSystem.ts
  - namespace ExportUtils     models src/utils/exportUtils.ts
  - namespace HeapModel       models the heap effects of DataProcessor

JavaScript strings are modelled by Lean String values (compared by code
points, which agrees with UTF-16 comparison on the ASCII data the tool
handles); JavaScript numbers holding integer data are modelled by Int.
Array.prototype.sort is stable in the Node runtime targeted by the code,
and is modelled by the stable insertion sort sortK below.
-/

namespace LastWar

/-- One leaderboard row, the RankingEntry record of src/schema.ts
(rank, commanderName, points). -/
structure RankingEntry where
  rank : Int
  commanderName : String
  points : Int
deriving DecidableEq, Repr

/-- One daily-style category bucket, the DayData record of src/schema.ts. -/
structure DayData where
  day : String
  entries : List RankingEntry
deriving DecidableEq, Repr

/-- One aggregated period, the WeekData record of src/schema.ts. -/
structure WeekData where
  weekNumber : Int
  weekDate : String
  dailyData : List DayData
  weeklyData : List RankingEntry
deriving DecidableEq, Repr

/-- The metadata block of ExtractedData in src/schema.ts. -/
structure Metadata where
  totalWeeks : Int
  totalScreenshots : Int
  extractedAt : String
deriving DecidableEq, Repr

/-- The top-level ExtractedData record of src/schema.ts. -/
structure ExtractedData where
  weeks : List WeekData
  metadata : Metadata
deriving DecidableEq, Repr

/-- One discovered image, the ScreenshotFile record of src/schema.ts.
Sizes and creation times are modelled as natural numbers. -/
structure ScreenshotFile where
  fileName : String
  filePath : String
  week : String
  day : String
  size : Nat
  createdAt : Nat
deriving DecidableEq, Repr

/-- One extraction outcome, the ProcessingResult record of src/schema.ts. -/
structure ProcessingResult where
  file : ScreenshotFile
  extracted : List RankingEntry
  success : Bool
  error : Option String
  processingTime : Int
deriving DecidableEq, Repr

/-- The values of the DayOfWeek enum of src/schema.ts, in declaration
order. -/
def validDays : List String :=
  ["Monday", "Tuesday", "Wednesday", "Thursday", "Friday", "Saturday", "Weekly"]

/-- The distinguished summary label DayOfWeek.WEEKLY. -/
def weeklyLabel : String := "Weekly"

/-! ### A stable insertion sort, modelling Array.prototype.sort

Node guarantees a stable sort.  All comparators in the sources have the
form (a, b) => key a - key b (or the default string comparison), so every
sort in the code is a stable sort by some key.  sortK inserts each element
before the later-processed elements that compare equal to it, which is
exactly the stable behaviour. -/

/-- Insert x into l, after every element whose key is strictly smaller. -/
def insertK {α κ : Type} [LinearOrder κ] (key : α → κ) (x : α) : List α → List α
  | [] => [x]
  | y :: ys => if key y < key x then y :: insertK key x ys else x :: y :: ys

/-- Stable insertion sort by a key. -/
def sortK {α κ : Type} [LinearOrder κ] (key : α → κ) : List α → List α
  | [] => []
  | x :: xs => insertK key x (sortK key xs)

theorem insertK_perm {α κ : Type} [LinearOrder κ] (key : α → κ) (x : α) (l : List α) :
    (insertK key x l).Perm (x :: l) := by
  induction l with
  | nil => simp [insertK]
  | cons y ys ih =>
    simp only [insertK]
    by_cases h : key y < key x
    · simp only [h, if_pos]
      exact ((ih.cons y).trans (List.Perm.swap x y ys))
    · simp [h]

theorem sortK_perm {α κ : Type} [LinearOrder κ] (key : α → κ) (l : List α) :
    (sortK key l).Perm l := by
  induction l with
  | nil => simp [sortK]
  | cons x xs ih =>
    exact (insertK_perm key x (sortK key xs)).trans (ih.cons x)

theorem insertK_pairwise {α κ : Type} [LinearOrder κ] (key : α → κ) (x : α) (l : List α)
    (hl : l.Pairwise (fun a b => key a ≤ key b)) :
    (insertK key x l).Pairwise (fun a b => key a ≤ key b) := by
  induction l with
  | nil => simp [insertK]
  | cons y ys ih =>
    rcases List.pairwise_cons.mp hl with ⟨hy, hys⟩
    simp only [insertK]
    by_cases h : key y < key x
    · simp only [h, if_pos]
      refine List.pairwise_cons.mpr ⟨?_, ih hys⟩
      intro z hz
      have hz2 : z ∈ x :: ys := (insertK_perm key x ys).mem_iff.mp hz
      rcases List.mem_cons.mp hz2 with hz3 | hz3
      · subst hz3; exact le_of_lt h
      · exact hy z hz3
    · simp only [h, if_neg, not_false_iff]
      refine List.pairwise_cons.mpr ⟨?_, hl⟩
      intro z hz
      rcases List.mem_cons.mp hz with hz | hz
      · subst hz; exact le_of_not_lt h
      · exact le_trans (le_of_not_lt h) (hy z hz)

theorem sortK_pairwise {α κ : Type} [LinearOrder κ] (key : α → κ) (l : List α) :
    (sortK key l).Pairwise (fun a b => key a ≤ key b) := by
  induction l with
  | nil => simp [sortK]
  | cons x xs ih => exact insertK_pairwise key x (sortK key xs) ih

theorem sortK_eq_of_pairwise {α κ : Type} [LinearOrder κ] (key : α → κ) (l : List α)
    (hl : l.Pairwise (fun a b => key a ≤ key b)) : sortK key l = l := by
  induction l with
  | nil => simp [sortK]
  | cons x xs ih =>
    rcases List.pairwise_cons.mp hl with ⟨hx, hxs⟩
    simp only [sortK, ih hxs]
    cases xs with
    | nil => simp [insertK]
    | cons y ys =>
      have : ¬ key y < key x := not_lt.mpr (hx y (List.mem_cons_self y ys))
      simp [insertK, this]

/-- The head of an insertion-sorted cons: inserting never changes emptiness. -/
theorem insertK_ne_nil {α κ : Type} [LinearOrder κ] (key : α → κ) (x : α) (l : List α) :
    insertK key x l ≠ [] := by
  intro hcon
  have := (insertK_perm key x l).length_eq
  simp [hcon] at this

/-- The last element of an insertion: x itself when every element of l has
a strictly smaller key, the old last element otherwise. -/
theorem insertK_getLast? {α κ : Type} [LinearOrder κ] (key : α → κ) (x : α) (l : List α) :
    (insertK key x l).getLast? =
      if l.all (fun y => key y < key x) then some x else l.getLast? := by
  induction l with
  | nil => simp [insertK]
  | cons y ys ih =>
    simp only [insertK, List.all_cons]
    by_cases h : key y < key x
    · rw [if_pos h]
      have hcons : (y :: insertK key x ys).getLast? = (insertK key x ys).getLast? := by
        cases hc : insertK key x ys with
        | nil => exact absurd hc (insertK_ne_nil key x ys)
        | cons z zs => rw [hc] at *; exact List.getLast?_cons_cons
      rw [hcons, ih]
      by_cases hall : ys.all (fun y => key y < key x)
      · simp [h, hall]
      · simp only [hall, Bool.and_false]
        have : (decide (key y < key x) && ys.all fun y => decide (key y < key x)) = false := by
          simp [hall]
        rw [if_neg (by simp [hall]), if_neg (by simp [this, hall])]
        cases ys with
        | nil => simp [List.all_nil] at hall
        | cons z zs => exact (List.getLast?_cons_cons).symm
    · rw [if_neg h]
      have : (decide (key y < key x) && ys.all fun y => decide (key y < key x)) = false := by
        simp [h]
      rw [if_neg (by simp [h])]
      cases ys with
      | nil => rfl
      | cons z zs => exact List.getLast?_cons_cons

/-! ### Character and string helpers shared by the embedded modules -/

/-- Decimal digit test, the \d character class of the period regex. -/
def isDigitChar (c : Char) : Bool := '0' ≤ c && c ≤ '9'

/-- Case-insensitive comparison of an input character against a lower-case
pattern character, the /i flag on ASCII letters. -/
def lowEq (a b : Char) : Bool := a.toLower == b

/-- JavaScript name.charAt(0).toUpperCase() + name.slice(1).toLowerCase(),
the first-letter-upper rest-lower normalization used throughout. -/
def capFirst (s : String) : String :=
  match s.data with
  | [] => ""
  | c :: cs => String.mk (c.toUpper :: cs.map Char.toLower)

/-- JavaScript String.prototype.toLowerCase on the ASCII data the tool
handles, character by character. -/
def strToLower (s : String) : String := String.mk (s.data.map Char.toLower)

/-- Decimal value of a digit string, the parseInt(digits, 10) of the
sources (the digits come from a \d+ capture, so they are plain 0-9). -/
def parseDecimal (ds : List Char) : Int :=
  ds.foldl (fun n c => n * 10 + (Int.ofNat c.toNat - Int.ofNat '0'.toNat)) 0

/-- Attempt of the regex week(\d+) (case-insensitive) at the start of the
character list: on success, the greedy maximal digit capture. -/
def matchWeekAt : List Char → Option (List Char)
  | w :: e1 :: e2 :: k :: rest =>
    if lowEq w 'w' && lowEq e1 'e' && lowEq e2 'e' && lowEq k 'k' then
      let ds := rest.takeWhile isDigitChar
      if ds.isEmpty then none else some ds
    else none
  | _ => none

/-- Leftmost search of week(\d+) over the whole string, the unanchored
String.prototype.match used by extractWeekNumber and compareWeeks. -/
def searchWeek : List Char → Option (List Char)
  | [] => none
  | c :: cs =>
    match matchWeekAt (c :: cs) with
    | some ds => some ds
    | none => searchWeek cs

/-- Anchored test of the live period pattern, the regex ^week\d+$ with the
/i flag of FileSystemUtils.isWeekDirectory in src/utils/fileSystem.ts:
the literal token week followed by one or more digits. -/
def matchWeekAnchoredReq (cs : List Char) : Bool :=
  match cs with
  | w :: e1 :: e2 :: k :: rest =>
    lowEq w 'w' && lowEq e1 'e' && lowEq e2 'e' && lowEq k 'k' &&
      !rest.isEmpty && rest.all isDigitChar
  | _ => false

/-- Anchored test of the legacy period pattern, the regex ^week\d*$ with
the /i flag of the unused legacy copy of FileSystemUtils (digits
optional). -/
def matchWeekAnchoredOpt (cs : List Char) : Bool :=
  match cs with
  | w :: e1 :: e2 :: k :: rest =>
    lowEq w 'w' && lowEq e1 'e' && lowEq e2 'e' && lowEq k 'k' &&
      rest.all isDigitChar
  | _ => false

/-! ### Calendar arithmetic

new Date(iso) followed by setDate and toISOString().split(T)[0] performs
exact proleptic-Gregorian day arithmetic in UTC; it is embedded with the
standard civil-date conversion algorithms on Int. -/

/-- Day count of a civil date from the epoch 1970-01-01 (negative before
it). All divisions are floor divisions on nonnegative operands except the
era, for which Int division (flooring for the positive divisor 400) is the
intended rounding. -/
def daysFromCivil (y m d : Int) : Int :=
  let y2 := if m ≤ 2 then y - 1 else y
  let era := y2 / 400
  let yoe := y2 - era * 400
  let mp := if m > 2 then m - 3 else m + 9
  let doy := (153 * mp + 2) / 5 + d - 1
  let doe := yoe * 365 + yoe / 4 - yoe / 100 + doy
  era * 146097 + doe - 719468

/-- Civil date (year, month, day) of a day count from 1970-01-01. -/
def civilFromDays (z0 : Int) : Int × Int × Int :=
  let z := z0 + 719468
  let era := z / 146097
  let doe := z - era * 146097
  let yoe := (doe - doe / 1460 + doe / 36524 - doe / 146096) / 365
  let y := yoe + era * 400
  let doy := doe - (365 * yoe + yoe / 4 - yoe / 100)
  let mp := (5 * doy + 2) / 153
  let d := doy - (153 * mp + 2) / 5 + 1
  let m := if mp < 10 then mp + 3 else mp - 9
  (if m ≤ 2 then y + 1 else y, m, d)

/-- One decimal digit character. -/
def digitChar (n : Nat) : Char := Char.ofNat (48 + n % 10)

/-- Two-digit zero-padded field of an ISO date. -/
def pad2 (n : Nat) : String := String.mk [digitChar (n / 10), digitChar n]

/-- Four-digit zero-padded year field of an ISO date (the tool only ever
produces years near 2024). -/
def pad4 (n : Nat) : String :=
  String.mk [digitChar (n / 1000), digitChar (n / 100), digitChar (n / 10), digitChar n]

/-- The date part of Date.prototype.toISOString, YYYY-MM-DD. -/
def formatCivil : Int × Int × Int → String
  | (y, m, d) => pad4 y.toNat ++ "-" ++ pad2 m.toNat ++ "-" ++ pad2 d.toNat

/-- Day count of the fixed epoch 2024-01-01 used by
calculateWeekStartDate. -/
def epochDays : Int := daysFromCivil 2024 1 1

/-! ### DataProcessor, the embedding of src/processors/dataProcessor.ts -/

namespace DataProcessor

/-- DataProcessor.extractWeekNumber: digits of the first week(\d+) match
(case-insensitive), and 0 when there is no match. -/
def extractWeekNumber (weekDir : String) : Int :=
  match searchWeek weekDir.data with
  | some ds => parseDecimal ds
  | none => 0

/-- DataProcessor.calculateWeekStartDate: the fixed epoch 2024-01-01 plus
(weekNumber - 1) * 7 days, formatted YYYY-MM-DD. -/
def calculateWeekStartDate (weekDir : String) : String :=
  let weekNumber := extractWeekNumber weekDir
  formatCivil (civilFromDays (epochDays + (weekNumber - 1) * 7))

/-- DataProcessor.normalizeDayName: first-letter-upper rest-lower
normalization, then a case-insensitive match against the DayOfWeek values,
falling back to the normalized string itself. -/
def normalizeDayName (dayName : String) : String :=
  let normalized := capFirst dayName
  match validDays.find? (fun day => strToLower day == strToLower normalized) with
  | some matchingDay => matchingDay
  | none => normalized

/-- The dayOrder table of DataProcessor.sortDailyData, keyed by the raw
day field; unrecognized labels get 999. -/
def dayOrderRaw (day : String) : Int :=
  if day = "Monday" then 1
  else if day = "Tuesday" then 2
  else if day = "Wednesday" then 3
  else if day = "Thursday" then 4
  else if day = "Friday" then 5
  else if day = "Saturday" then 6
  else if day = "Weekly" then 7
  else 999

/-- DataProcessor.sortDailyData: stable sort of the daily buckets by the
fixed label order table. -/
def sortDailyData (dailyData : List DayData) : List DayData :=
  sortK (fun d => dayOrderRaw d.day) dailyData

/-- Stable sort of records ascending by rank, the comparator
(a, b) => a.rank - b.rank. -/
def sortByRank (l : List RankingEntry) : List RankingEntry :=
  sortK RankingEntry.rank l

/-- Replacement of the first bucket carrying the given label, modelling
the in-place mutation of the DayData object located by Array.find. -/
def replaceFirst (l : List DayData) (dayName : String) (upd : DayData) : List DayData :=
  match l with
  | [] => []
  | d :: ds => if d.day = dayName then upd :: ds else d :: replaceFirst ds dayName upd

/-- DataProcessor.addResultToWeekData: Weekly results are appended to the
summary bucket and the whole bucket re-sorted (no dedup); daily results
are merged into their bucket with rank dedup (records already present
win), then the bucket is re-sorted. -/
def addResultToWeekData (weekData : WeekData) (result : ProcessingResult) : WeekData :=
  let dayName := normalizeDayName result.file.day
  if dayName = weeklyLabel then
    { weekData with weeklyData := sortByRank (weekData.weeklyData ++ result.extracted) }
  else
    match weekData.dailyData.find? (fun d => d.day = dayName) with
    | some dayData =>
      let existingRanks := dayData.entries.map RankingEntry.rank
      let newEntries := result.extracted.filter (fun e => !existingRanks.contains e.rank)
      let upd := { dayData with entries := sortByRank (dayData.entries ++ newEntries) }
      { weekData with dailyData := replaceFirst weekData.dailyData dayName upd }
    | none =>
      let newEntries := result.extracted
      let upd : DayData := { day := dayName, entries := sortByRank newEntries }
      { weekData with dailyData := weekData.dailyData ++ [upd] }

/-- The week name taken from the first successful result,
successfulResults[0]?.file.week || week1 (the JavaScript || replaces an
empty week label by week1). -/
def effectiveWeekName (successfulResults : List ProcessingResult) : String :=
  match successfulResults.head? with
  | some r => if r.file.week = "" then "week1" else r.file.week
  | none => "week1"

/-- DataProcessor.processResults: drop failed results, fail when none
remain, then fold the successes into one WeekData and wrap it with
metadata. The wall-clock timestamp new Date().toISOString() is passed in
as the parameter now. -/
def processResults (results : List ProcessingResult) (now : String) :
    Except String ExtractedData :=
  let successfulResults := results.filter (fun r => r.success)
  if successfulResults.length = 0 then
    Except.error "No successful results to process"
  else
    let weekName := effectiveWeekName successfulResults
    let weekNumber := extractWeekNumber weekName
    let totalScreenshots : Int := successfulResults.length
    let weekData0 : WeekData :=
      { weekNumber := weekNumber
        weekDate := calculateWeekStartDate weekName
        dailyData := []
        weeklyData := [] }
    let weekData := successfulResults.foldl addResultToWeekData weekData0
    let weekData := { weekData with dailyData := sortDailyData weekData.dailyData }
    Except.ok
      { weeks := [weekData]
        metadata :=
          { totalWeeks := 1
            totalScreenshots := totalScreenshots
            extractedAt := now } }

/-- DataProcessor.getDataSummary. -/
def getDataSummary (weekData : WeekData) : Int × Int × Bool :=
  (weekData.dailyData.length,
   (weekData.dailyData.map (fun d => d.entries.length)).sum,
   weekData.weeklyData.length > 0)

end DataProcessor

/-! ### FileSystemUtils, the embedding of src/utils/fileSystem.ts

The filesystem itself is modelled explicitly: a directory listing is a
list of named entries with an isDirectory flag (readdir with
withFileTypes), and the listings and file metadata of the tree are
supplied as functions of the path. -/

/-- One readdir entry: name and isDirectory flag. -/
structure DirEntry where
  name : String
  isDir : Bool
deriving DecidableEq, Repr

/-- Node path.join for the two-component joins the scanner performs. -/
def joinPath (a b : String) : String := a ++ "/" ++ b

/-- Node path.basename: the part after the last slash, trailing slashes
stripped. -/
def basename (p : String) : String :=
  let cs := (p.data.reverse.dropWhile (fun c => c = '/')).takeWhile (fun c => c ≠ '/')
  String.mk cs.reverse

/-- Node path.extname on a plain file name: the suffix from the last dot,
empty when there is no dot or the dot is the first character (a name that
is only dots has no extension). -/
def extname (fileName : String) : String :=
  let cs := fileName.data
  if cs.all (fun c => c = '.') then ""
  else
    let tail := cs.reverse.takeWhile (fun c => c ≠ '.')
    if tail.length = cs.length then ""
    else if tail.length + 1 = cs.length then ""
    else String.mk ('.' :: tail.reverse)

/-- The model of the directory tree handed to the scanner: whether the
root exists, the root path, the listing of each directory (keyed by full
path) and the size and creation time of each file (keyed by full path). -/
structure FSModel where
  rootExists : Bool
  inputPath : String
  listing : String → List DirEntry
  fileNames : String → List String
  statSize : String → Nat
  statBirth : String → Nat

namespace FileSystemUtils

/-- FileSystemUtils.isWeekDirectory of the live module
src/utils/fileSystem.ts: the anchored regex ^week\d+$ (case-insensitive,
digits required). -/
def isWeekDirectory (name : String) : Bool := matchWeekAnchoredReq name.data

/-- The isWeekDirectory of the unused legacy copy of the module: the
anchored regex ^week\d*$ (digits optional). -/
def isWeekDirectoryLegacy (name : String) : Bool := matchWeekAnchoredOpt name.data

/-- The getWeekNumber closure of FileSystemUtils.compareWeeks: same
unanchored week(\d+) search as DataProcessor.extractWeekNumber. -/
def getWeekNumber (week : String) : Int :=
  match searchWeek week.data with
  | some ds => parseDecimal ds
  | none => 0

/-- FileSystemUtils.isDayDirectory of the live module: first-letter-upper
rest-lower normalization, then exact membership in the DayOfWeek values. -/
def isDayDirectory (name : String) : Bool := validDays.contains (capFirst name)

/-- FileSystemUtils.isImageFile: case-insensitive extension membership. -/
def isImageFile (fileName : String) : Bool :=
  [".jpg", ".jpeg", ".png", ".gif", ".bmp", ".webp"].contains (strToLower (extname fileName))

/-- The comparison key of FileSystemUtils.compareDays of the live module:
normalize, then the fixed label order table with default 999. -/
def dayKey (day : String) : Int := DataProcessor.dayOrderRaw (capFirst day)

/-- FileSystemUtils.findMostRecentWeekDir: filter the listing to week
directories, stable-sort the names by week number, return the base path
joined with the last one. -/
def findMostRecentWeekDir (basePath : String) (entries : List DirEntry) : Option String :=
  let weekDirs :=
    sortK getWeekNumber
      ((entries.filter (fun e => e.isDir && isWeekDirectory e.name)).map DirEntry.name)
  (weekDirs.getLast?).map (fun n => joinPath basePath n)

/-- FileSystemUtils.getDayDirectories: filter the listing to day
directories and stable-sort the names by compareDays. -/
def getDayDirectories (entries : List DirEntry) : List String :=
  sortK dayKey ((entries.filter (fun e => e.isDir && isDayDirectory e.name)).map DirEntry.name)

/-- FileSystemUtils.getImageFiles: filter a plain readdir listing to
image names and sort them lexically (the default string sort compares
code units, modelled as the lexical order on the character lists). -/
def getImageFiles (names : List String) : List String :=
  sortK String.data (names.filter isImageFile)

/-- The ScreenshotFile records emitted for one day directory. -/
def filesOfDay (fs : FSModel) (weekPath weekName dayDir : String) : List ScreenshotFile :=
  (getImageFiles (fs.fileNames (joinPath weekPath dayDir))).map (fun file =>
    { fileName := file
      filePath := joinPath (joinPath weekPath dayDir) file
      week := weekName
      day := dayDir
      size := fs.statSize (joinPath (joinPath weekPath dayDir) file)
      createdAt := fs.statBirth (joinPath (joinPath weekPath dayDir) file) })

/-- FileSystemUtils.scanScreenshotDirectory of the live module: resolve
the week directory (the root itself when its base name matches, otherwise
the most recent week subdirectory), enumerate the images of each day
directory, and stable-sort the result by day order. Every failure is
wrapped in the Failed to scan prefix by the surrounding catch. -/
def scanScreenshotDirectory (fs : FSModel) : Except String (List ScreenshotFile) :=
  if fs.rootExists = false then
    Except.error ("Failed to scan directory: Directory does not exist: " ++ fs.inputPath)
  else
    let weekPathOpt :=
      if isWeekDirectory (basename fs.inputPath) then some fs.inputPath
      else findMostRecentWeekDir fs.inputPath (fs.listing fs.inputPath)
    match weekPathOpt with
    | none =>
      Except.error ("Failed to scan directory: No week directory found. Please provide a path containing a week directory (e.g., \x22week1\x22)")
    | some weekPath =>
      let weekName := basename weekPath
      let dayDirs := getDayDirectories (fs.listing weekPath)
      if dayDirs.length = 0 then
        Except.error ("Failed to scan directory: No day directories found in " ++ weekPath)
      else
        Except.ok
          (sortK (fun sc => dayKey sc.day)
            ((dayDirs.map (filesOfDay fs weekPath weekName)).flatten))

end FileSystemUtils

/-! ### ExportUtils, the embedding of src/utils/exportUtils.ts

Only the in-memory workbook construction is modelled; the final buffer
write is an I/O step outside the model. A worksheet produced by
XLSX.utils.json_to_sheet is modelled as its grid of cells, a header row of
the object keys followed by one row per object. -/

/-- One spreadsheet cell. -/
inductive Cell where
  | int (n : Int) : Cell
  | str (s : String) : Cell
deriving DecidableEq, Repr

/-- One worksheet: name and grid. -/
abbrev Sheet := String × List (List Cell)

namespace ExportUtils

/-- The worksheet grid of json_to_sheet applied to the mapped records
with keys Rank, CommanderName, Points. -/
def entryGrid (entries : List RankingEntry) : List (List Cell) :=
  [Cell.str "Rank", Cell.str "CommanderName", Cell.str "Points"] ::
    entries.map (fun e => [Cell.int e.rank, Cell.str e.commanderName, Cell.int e.points])

/-- The worksheet grid of the trailing Summary sheet: the five metric
rows built by exportToXLSX. -/
def summaryGrid (week : WeekData) : List (List Cell) :=
  [ [Cell.str "Metric", Cell.str "Value"],
    [Cell.str "Week Number", Cell.int week.weekNumber],
    [Cell.str "Week Date", Cell.str week.weekDate],
    [Cell.str "Days Tracked", Cell.int week.dailyData.length],
    [Cell.str "Total Daily Entries",
      Cell.int ((week.dailyData.map (fun d => (d.entries.length : Int))).sum)],
    [Cell.str "Weekly Entries", Cell.int week.weeklyData.length] ]

/-- ExportUtils.exportToXLSX, as the workbook it builds: one sheet per
daily bucket, a Weekly sheet when the summary bucket is non-empty -- and
an error when it is empty, whatever the daily buckets hold -- then the
trailing Summary sheet. -/
def exportToXLSX (week : WeekData) : Except String (List Sheet) :=
  let dailySheets :=
    if week.dailyData.length > 0 then
      week.dailyData.map (fun day => (day.day, entryGrid day.entries))
    else []
  if week.weeklyData.length > 0 then
    Except.ok (dailySheets ++ [("Weekly", entryGrid week.weeklyData), ("Summary", summaryGrid week)])
  else
    Except.error "No data to export - both daily and weekly data are empty"

end ExportUtils

/-! ### Heap model of DataProcessor.processResults

The frame claim about processResults is about the JavaScript heap: the
record arrays live in a store, results reference their extracted array by
index, and the week structure references its buckets by index. Record
objects themselves are modelled as values: no statement in
dataProcessor.ts assigns to a field of a RankingEntry, a ScreenshotFile
or a ProcessingResult, so only the arrays are mutable. Allocation appends
to the store, so an array is an input array exactly when its index is
below the initial store length. -/

namespace HeapModel

/-- The store of record arrays. -/
abbrev Store := List (List RankingEntry)

/-- Read an array from the store (a dangling index reads empty). -/
def readArr (s : Store) (i : Nat) : List RankingEntry := s.getD i []

/-- Overwrite an array in the store. -/
def writeArr (s : Store) (i : Nat) (v : List RankingEntry) : Store := s.set i v

/-- Allocate a fresh array, returning the grown store and its index. -/
def allocArr (s : Store) (v : List RankingEntry) : Store × Nat := (s ++ [v], s.length)

/-- A ProcessingResult whose extracted array is a store reference. -/
structure ProcessingResultR where
  file : ScreenshotFile
  extractedId : Nat
  success : Bool
  error : Option String
  processingTime : Int
deriving DecidableEq, Repr

/-- A DayData whose entries array is a store reference. -/
structure DayDataR where
  day : String
  entriesId : Nat
deriving DecidableEq, Repr

/-- A WeekData whose weekly bucket is a store reference. -/
structure WeekDataR where
  weekNumber : Int
  weekDate : String
  dailyData : List DayDataR
  weeklyId : Nat
deriving DecidableEq, Repr

/-- An ExtractedData over store references. -/
structure ExtractedDataR where
  weeks : List WeekDataR
  metadata : Metadata
deriving DecidableEq, Repr

/-- DataProcessor.addResultToWeekData with the heap made explicit: the
pushes and in-place sorts of the source act on the store, everything else
is value passing. -/
def addResultToWeekDataR (s : Store) (weekData : WeekDataR) (result : ProcessingResultR) :
    Store × WeekDataR :=
  let dayName := DataProcessor.normalizeDayName result.file.day
  let extracted := readArr s result.extractedId
  if dayName = weeklyLabel then
    let s2 := writeArr s weekData.weeklyId
      (DataProcessor.sortByRank (readArr s weekData.weeklyId ++ extracted))
    (s2, weekData)
  else
    match weekData.dailyData.find? (fun d => d.day = dayName) with
    | some dayData =>
      let old := readArr s dayData.entriesId
      let existingRanks := old.map RankingEntry.rank
      let newEntries := extracted.filter (fun e => !existingRanks.contains e.rank)
      (writeArr s dayData.entriesId (DataProcessor.sortByRank (old ++ newEntries)), weekData)
    | none =>
      let (s2, eid) := allocArr s []
      let weekData2 := { weekData with dailyData := weekData.dailyData ++ [⟨dayName, eid⟩] }
      let old := readArr s2 eid
      let existingRanks := old.map RankingEntry.rank
      let newEntries := extracted.filter (fun e => !existingRanks.contains e.rank)
      (writeArr s2 eid (DataProcessor.sortByRank (old ++ newEntries)), weekData2)

/-- DataProcessor.processResults with the heap made explicit. -/
def processResultsR (s : Store) (results : List ProcessingResultR) (now : String) :
    Store × Except String ExtractedDataR :=
  let successfulResults := results.filter (fun r => r.success)
  if successfulResults.length = 0 then
    (s, Except.error "No successful results to process")
  else
    let weekName :=
      match successfulResults.head? with
      | some r => if r.file.week = "" then "week1" else r.file.week
      | none => "week1"
    let (s1, weeklyId) := allocArr s []
    let weekData0 : WeekDataR :=
      { weekNumber := DataProcessor.extractWeekNumber weekName
        weekDate := DataProcessor.calculateWeekStartDate weekName
        dailyData := []
        weeklyId := weeklyId }
    let folded := successfulResults.foldl
      (fun (acc : Store × WeekDataR) r => addResultToWeekDataR acc.1 acc.2 r)
      (s1, weekData0)
    let s2 := folded.1
    let weekData := folded.2
    let weekData := { weekData with dailyData := sortK (fun d => DataProcessor.dayOrderRaw d.day) weekData.dailyData }
    (s2, Except.ok
      { weeks := [weekData]
        metadata :=
          { totalWeeks := 1
            totalScreenshots := successfulResults.length
            extractedAt := now } })

end HeapModel

/-! ### Validator, DataProcessor.validateWeekData -/

/-- The valid flag and ordered issue list returned by the validator. -/
structure ValidationResult where
  valid : Bool
  issues : List String
deriving DecidableEq, Repr

namespace DataProcessor

/-- The issue messages the per-bucket checks of validateWeekData push for
one daily bucket: invalid day name, then either the no-entries message or
the duplicate-ranks message (the schema guarantees day.entries is an
array, so the JavaScript !day.entries guard never fires and only the
length test remains). The set-size test new Set(ranks).size is modelled
by List.dedup, which has the cardinality of the set of ranks. -/
def dayIssues (day : DayData) : List String :=
  (if day.day = "" || !(validDays.contains day.day) then
      ["Invalid day name: " ++ day.day]
    else [])
  ++ (if day.entries.length = 0 then
        ["No entries found for day: " ++ day.day]
      else if (day.entries.map RankingEntry.rank).dedup.length ≠
              (day.entries.map RankingEntry.rank).length then
        ["Duplicate ranks found for day: " ++ day.day]
      else [])

/-- DataProcessor.validateWeekData: accumulate the issue messages in
source order and report valid exactly when none accumulated. -/
def validateWeekData (weekData : WeekData) : ValidationResult :=
  let issues :=
    (if weekData.weekNumber ≤ 0 then
        ["Invalid week number: " ++ toString weekData.weekNumber]
      else [])
    ++ (if weekData.weekDate = "" then ["Missing week date"] else [])
    ++ (if weekData.dailyData.length = 0 then ["No daily data found"]
        else (weekData.dailyData.map dayIssues).flatten)
  { valid := issues.isEmpty, issues := issues }

end DataProcessor

/-! ### Definitions modelled from the spec wording, for comparison with
the source embeddings -/

/-- Modelled from the spec: the number of failing checks for one daily
bucket among the per-bucket checks of section 4.3 (label canonical,
bucket non-empty, no duplicate ranks; the duplicate check runs only on a
non-empty bucket). -/
def dayFailCountSpec (d : DayData) : Nat :=
  (if d.day = "" ∨ d.day ∉ validDays then 1 else 0)
  + (if d.entries = [] then 1 else 0)
  + (if d.entries ≠ [] ∧ ¬ (d.entries.map RankingEntry.rank).Nodup then 1 else 0)

/-- Modelled from the spec: the total number of failing checks of
section 4.3 for a period. -/
def validateFailCountSpec (wd : WeekData) : Nat :=
  (if wd.weekNumber ≤ 0 then 1 else 0)
  + (if wd.weekDate = "" then 1 else 0)
  + (if wd.dailyData = [] then 1 else 0)
  + (wd.dailyData.map dayFailCountSpec).sum

/-- Modelled from the spec: the conjunction of the six checks of
section 4.3 (a canonical label is in particular non-empty, so the
non-empty-label clause is folded into membership). -/
def validateValidSpec (wd : WeekData) : Prop :=
  0 < wd.weekNumber ∧ wd.weekDate ≠ "" ∧ wd.dailyData ≠ [] ∧
    ∀ d ∈ wd.dailyData,
      d.day ∈ validDays ∧ d.entries ≠ [] ∧ (d.entries.map RankingEntry.rank).Nodup

instance (wd : WeekData) : Decidable (validateValidSpec wd) := by
  unfold validateValidSpec; infer_instance

/-- Modelled from the amended claim for the week-directory resolver: the
element with the largest key, the later-listed one winning ties. -/
def specLastMax {α κ : Type} [LinearOrder κ] (key : α → κ) : List α → Option α
  | [] => none
  | x :: xs =>
    match specLastMax key xs with
    | none => some x
    | some b => if key b < key x then some x else some b

/-- Lexical order on the character sequences of two strings, by code
point (the order JavaScript string comparison induces on the ASCII names
involved). -/
def charListLt : List Char → List Char → Bool
  | [], [] => false
  | [], _ :: _ => true
  | _ :: _, [] => false
  | a :: as, b :: bs =>
    if a.toNat < b.toNat then true
    else if b.toNat < a.toNat then false
    else charListLt as bs

/-- Modelled from the original claim for the week-directory resolver: the
matching name with the largest week number, ties between equal numbers
broken by lexical order of the names (the lexically larger name wins,
consistent with selecting a largest element). -/
def claimSelectLexMax (names : List String) : Option String :=
  names.foldl
    (fun best v =>
      match best with
      | none => some v
      | some b =>
        if FileSystemUtils.getWeekNumber b < FileSystemUtils.getWeekNumber v then some v
        else if FileSystemUtils.getWeekNumber b = FileSystemUtils.getWeekNumber v
            ∧ charListLt b.data v.data = true then some v
        else some b)
    none

/-! ### Shared sample data -/

/-- A screenshot file descriptor with the given labels. -/
def sampleFile (week day fileName : String) : ScreenshotFile :=
  { fileName := fileName, filePath := "", week := week, day := day, size := 0, createdAt := 0 }

/-- A successful extraction outcome. -/
def resOk (week day : String) (es : List RankingEntry) : ProcessingResult :=
  { file := sampleFile week day "s.png", extracted := es, success := true,
    error := none, processingTime := 0 }

/-- A failed extraction outcome. -/
def resFail (week day : String) : ProcessingResult :=
  { file := sampleFile week day "s.png", extracted := [], success := false,
    error := some "extraction failed", processingTime := 0 }

/-- A period with one non-empty daily bucket and an empty summary
bucket. -/
def mondayOnlyWeek : WeekData :=
  { weekNumber := 1, weekDate := "2024-01-01",
    dailyData := [{ day := "Monday", entries := [⟨1, "A", 100⟩] }],
    weeklyData := [] }

/-- A period with no daily buckets and a non-empty summary bucket. -/
def weeklyOnlyWeek : WeekData :=
  { weekNumber := 1, weekDate := "2024-01-01",
    dailyData := [],
    weeklyData := [⟨1, "A", 100⟩] }

/-- The entries of the first daily bucket carrying a label, read the same
way the source locates a bucket (Array.find), empty when absent. -/
def entriesFor (wd : WeekData) (d : String) : List RankingEntry :=
  match wd.dailyData.find? (fun b => b.day = d) with
  | some b => b.entries
  | none => []

/-! ## Claim C1 -/

/-- C1: the workbook export is claimed to fail exactly when both the
daily buckets and the summary bucket are empty. The code instead throws
its empty-data error whenever the summary bucket is empty, even with a
non-empty daily bucket, contradicting the text of its own error message;
the other half of the claim (empty daily buckets, non-empty summary
bucket: a Weekly sheet, a trailing Summary sheet, no daily sheets) does
hold. -/
theorem c1_xlsx_empty_guard :
    ExportUtils.exportToXLSX mondayOnlyWeek =
      Except.error "No data to export - both daily and weekly data are empty"
    ∧ (ExportUtils.exportToXLSX weeklyOnlyWeek).map (fun sheets => sheets.map Prod.fst) =
      Except.ok ["Weekly", "Summary"] := by
  exact ⟨rfl, rfl⟩

/-! ## Claim C2 -/

theorem find?_replaceFirst_same (l : List DayData) (d : String) (upd : DayData)
    (hupd : upd.day = d) (h : (l.find? (fun b => b.day = d)).isSome) :
    (DataProcessor.replaceFirst l d upd).find? (fun b => b.day = d) = some upd := by
  induction l with
  | nil => simp [List.find?] at h
  | cons b bs ih =>
    by_cases hb : b.day = d
    · simp only [DataProcessor.replaceFirst, if_pos hb]
      exact List.find?_cons_of_pos _ (by simp [hupd])
    · simp only [DataProcessor.replaceFirst, if_neg hb]
      rw [List.find?_cons_of_neg _ (by simp [hb])]
      apply ih
      rw [List.find?_cons_of_neg _ (by simp [hb])] at h
      exact h

theorem find?_replaceFirst_other (l : List DayData) (d d2 : String) (upd : DayData)
    (hupd : upd.day = d) (hne : d2 ≠ d) :
    (DataProcessor.replaceFirst l d upd).find? (fun b => b.day = d2) =
      l.find? (fun b => b.day = d2) := by
  induction l with
  | nil => simp [DataProcessor.replaceFirst]
  | cons b bs ih =>
    by_cases hb : b.day = d
    · have hb2 : ¬ b.day = d2 := by rw [hb]; exact fun hcon => hne hcon.symm
      have hupd2 : ¬ upd.day = d2 := by rw [hupd]; exact fun hcon => hne hcon.symm
      simp only [DataProcessor.replaceFirst, if_pos hb]
      rw [List.find?_cons_of_neg _ (by simp [hupd2]),
        List.find?_cons_of_neg _ (by simp [hb2])]
    · simp only [DataProcessor.replaceFirst, if_neg hb]
      by_cases hb2 : b.day = d2
      · rw [List.find?_cons_of_pos _ (by simp [hb2]),
          List.find?_cons_of_pos _ (by simp [hb2])]
      · rw [List.find?_cons_of_neg _ (by simp [hb2]),
          List.find?_cons_of_neg _ (by simp [hb2])]
        exact ih

/-- C2: folding a successful entry whose normalized label is a daily
label into a period merges it into the first bucket of that label with
rank dedup. The merged bucket is sorted ascending by rank and is a
permutation of the old bucket followed by exactly the new records whose
rank was not already present; records whose rank was present contribute
nothing (the earlier-processed records win); the summary bucket and the
buckets of every other label are untouched. -/
theorem c2_daily_dedup (wd : WeekData) (r : ProcessingResult)
    (hday : DataProcessor.normalizeDayName r.file.day ≠ weeklyLabel) :
    (entriesFor (DataProcessor.addResultToWeekData wd r)
        (DataProcessor.normalizeDayName r.file.day)).Pairwise (fun a b => a.rank ≤ b.rank)
    ∧ (entriesFor (DataProcessor.addResultToWeekData wd r)
        (DataProcessor.normalizeDayName r.file.day)).Perm
        (entriesFor wd (DataProcessor.normalizeDayName r.file.day) ++
          r.extracted.filter (fun e =>
            !((entriesFor wd (DataProcessor.normalizeDayName r.file.day)).map
                RankingEntry.rank).contains e.rank))
    ∧ (∀ rk ∈ (entriesFor wd (DataProcessor.normalizeDayName r.file.day)).map
          RankingEntry.rank,
        ((entriesFor (DataProcessor.addResultToWeekData wd r)
            (DataProcessor.normalizeDayName r.file.day)).filter
              (fun e => e.rank = rk)).Perm
          ((entriesFor wd (DataProcessor.normalizeDayName r.file.day)).filter
              (fun e => e.rank = rk)))
    ∧ (DataProcessor.addResultToWeekData wd r).weeklyData = wd.weeklyData
    ∧ (∀ d2, d2 ≠ DataProcessor.normalizeDayName r.file.day →
        entriesFor (DataProcessor.addResultToWeekData wd r) d2 = entriesFor wd d2) := by
  classical
  set d := DataProcessor.normalizeDayName r.file.day with hd
  have hwd2 : DataProcessor.addResultToWeekData wd r =
      match wd.dailyData.find? (fun b => b.day = d) with
      | some dayData =>
        { wd with
            dailyData :=
              DataProcessor.replaceFirst wd.dailyData d
                ({ dayData with
                    entries := DataProcessor.sortByRank (dayData.entries ++
                      r.extracted.filter (fun e =>
                        !(dayData.entries.map RankingEntry.rank).contains e.rank)) }) }
      | none =>
        { wd with
            dailyData := wd.dailyData ++
              [{ day := d, entries := DataProcessor.sortByRank r.extracted }] } := by
    rw [DataProcessor.addResultToWeekData]
    rw [if_neg hday]
  cases hfind : wd.dailyData.find? (fun b => b.day = d) with
  | some dayData =>
    have hdayEq : dayData.day = d := by
      have := List.find?_some hfind
      simpa using this
    have hold : entriesFor wd d = dayData.entries := by
      unfold entriesFor; rw [hfind]
    have hsome : (wd.dailyData.find? (fun b => b.day = d)).isSome := by
      rw [hfind]; rfl
    have hnew : entriesFor (DataProcessor.addResultToWeekData wd r) d =
        DataProcessor.sortByRank (dayData.entries ++
          r.extracted.filter (fun e =>
            !(dayData.entries.map RankingEntry.rank).contains e.rank)) := by
      unfold entriesFor
      rw [hwd2, hfind]
      simp only
      rw [find?_replaceFirst_same wd.dailyData d
        ({ day := dayData.day,
           entries := DataProcessor.sortByRank (dayData.entries ++
             r.extracted.filter (fun e =>
               !(dayData.entries.map RankingEntry.rank).contains e.rank)) }) hdayEq hsome]
    refine ⟨?_, ?_, ?_, ?_, ?_⟩
    · rw [hnew]; exact sortK_pairwise _ _
    · rw [hnew, hold]
      exact sortK_perm _ _
    · intro rk hrk
      rw [hold] at hrk
      have hperm : (entriesFor (DataProcessor.addResultToWeekData wd r) d).Perm
          (dayData.entries ++
            r.extracted.filter (fun e =>
              !(dayData.entries.map RankingEntry.rank).contains e.rank)) := by
        rw [hnew]; exact sortK_perm _ _
      have hfilter := hperm.filter (fun e => e.rank = rk)
      rw [List.filter_append] at hfilter
      have hnil : (r.extracted.filter (fun e =>
          !(dayData.entries.map RankingEntry.rank).contains e.rank)).filter
            (fun e => e.rank = rk) = [] := by
        rw [List.filter_eq_nil_iff]
        intro e he
        have he2 := List.of_mem_filter he
        simp only [Bool.not_eq_true'] at he2
        simp only [decide_eq_true_eq]
        intro hcon
        have hmem : e.rank ∈ dayData.entries.map RankingEntry.rank := hcon ▸ hrk
        have hcontains : (dayData.entries.map RankingEntry.rank).contains e.rank = true :=
          List.elem_iff.mpr hmem
        exact absurd (hcontains.symm.trans he2) (by decide)
      rw [hnil, List.append_nil] at hfilter
      rw [hold]
      exact hfilter
    · rw [hwd2, hfind]
    · intro d2 hd2
      unfold entriesFor
      rw [hwd2, hfind]
      simp only
      rw [find?_replaceFirst_other wd.dailyData d d2
        ({ day := dayData.day,
           entries := DataProcessor.sortByRank (dayData.entries ++
             r.extracted.filter (fun e =>
               !(dayData.entries.map RankingEntry.rank).contains e.rank)) }) hdayEq hd2]
  | none =>
    have hold : entriesFor wd d = [] := by
      unfold entriesFor; rw [hfind]
    have hnew : entriesFor (DataProcessor.addResultToWeekData wd r) d =
        DataProcessor.sortByRank r.extracted := by
      unfold entriesFor
      rw [hwd2, hfind]
      simp only
      rw [List.find?_append, hfind]
      simp [List.find?]
    refine ⟨?_, ?_, ?_, ?_, ?_⟩
    · rw [hnew]; exact sortK_pairwise _ _
    · rw [hnew, hold]
      simp only [List.nil_append, List.map_nil]
      have : r.extracted.filter (fun e => !(([] : List Int).contains e.rank)) =
          r.extracted := by
        rw [List.filter_eq_self]
        intro e _
        rfl
      rw [this]
      exact sortK_perm _ _
    · intro rk hrk
      rw [hold] at hrk
      simp at hrk
    · rw [hwd2, hfind]
    · intro d2 hd2
      unfold entriesFor
      rw [hwd2, hfind]
      simp only
      rw [List.find?_append]
      have hsingle : ([{ day := d, entries := DataProcessor.sortByRank r.extracted }] :
          List DayData).find? (fun b => b.day = d2) = none := by
        have hns : ¬ (d = d2) := fun hcon => hd2 hcon.symm
        simp [List.find?, hns]
      rw [hsingle, Option.or_none]

/-- The first Monday entry of the spec example, ranks 1, 2, 3. -/
def c2res1 : ProcessingResult :=
  resOk "week1" "Monday" [⟨1, "A1", 10⟩, ⟨2, "A2", 20⟩, ⟨3, "A3", 30⟩]

/-- The second Monday entry of the spec example, overlapping ranks
2, 3, 4 with different values. -/
def c2res2 : ProcessingResult :=
  resOk "week1" "Monday" [⟨2, "B2", 21⟩, ⟨3, "B3", 31⟩, ⟨4, "B4", 41⟩]

/-- The empty period the spec example starts from. -/
def c2wd0 : WeekData :=
  { weekNumber := 1, weekDate := "2024-01-01", dailyData := [], weeklyData := [] }

/-- The period after folding the first Monday entry. -/
def c2wd1 : WeekData := DataProcessor.addResultToWeekData c2wd0 c2res1

/-- Witness for C2 at the spec example: the second Monday entry is folded
into the bucket built from the first one, and the resulting bucket holds
ranks 1, 2, 3, 4 with the values of ranks 2 and 3 taken from the first
entry. -/
theorem c2_daily_dedup_witness :
    DataProcessor.normalizeDayName c2res2.file.day ≠ weeklyLabel
    ∧ ((entriesFor (DataProcessor.addResultToWeekData c2wd1 c2res2)
        (DataProcessor.normalizeDayName c2res2.file.day)).Pairwise
          (fun a b => a.rank ≤ b.rank)
      ∧ (entriesFor (DataProcessor.addResultToWeekData c2wd1 c2res2)
          (DataProcessor.normalizeDayName c2res2.file.day)).Perm
          (entriesFor c2wd1 (DataProcessor.normalizeDayName c2res2.file.day) ++
            c2res2.extracted.filter (fun e =>
              !((entriesFor c2wd1 (DataProcessor.normalizeDayName c2res2.file.day)).map
                  RankingEntry.rank).contains e.rank))
      ∧ (∀ rk ∈ (entriesFor c2wd1 (DataProcessor.normalizeDayName c2res2.file.day)).map
            RankingEntry.rank,
          ((entriesFor (DataProcessor.addResultToWeekData c2wd1 c2res2)
              (DataProcessor.normalizeDayName c2res2.file.day)).filter
                (fun e => e.rank = rk)).Perm
            ((entriesFor c2wd1 (DataProcessor.normalizeDayName c2res2.file.day)).filter
                (fun e => e.rank = rk)))
      ∧ (DataProcessor.addResultToWeekData c2wd1 c2res2).weeklyData = c2wd1.weeklyData
      ∧ (∀ d2, d2 ≠ DataProcessor.normalizeDayName c2res2.file.day →
          entriesFor (DataProcessor.addResultToWeekData c2wd1 c2res2) d2 =
            entriesFor c2wd1 d2))
    ∧ entriesFor (DataProcessor.addResultToWeekData c2wd1 c2res2) "Monday" =
        [⟨1, "A1", 10⟩, ⟨2, "A2", 20⟩, ⟨3, "A3", 30⟩, ⟨4, "B4", 41⟩] :=
  ⟨by decide, c2_daily_dedup c2wd1 c2res2 (by decide), by decide⟩

/-! ## Claim C3 -/

/-- C3: folding a successful entry whose normalized label is Weekly
appends its records to the summary bucket with no rank dedup (counts
add up, so duplicate ranks across entries are all kept), re-sorts the
whole summary bucket ascending by rank, and leaves the daily buckets
untouched. -/
theorem c3_weekly_nondedup (wd : WeekData) (r : ProcessingResult)
    (hday : DataProcessor.normalizeDayName r.file.day = weeklyLabel) :
    (DataProcessor.addResultToWeekData wd r).dailyData = wd.dailyData
    ∧ ((DataProcessor.addResultToWeekData wd r).weeklyData).Perm
        (wd.weeklyData ++ r.extracted)
    ∧ ((DataProcessor.addResultToWeekData wd r).weeklyData).Pairwise
        (fun a b => a.rank ≤ b.rank)
    ∧ ∀ e : RankingEntry, ((DataProcessor.addResultToWeekData wd r).weeklyData).count e =
        wd.weeklyData.count e + r.extracted.count e := by
  have h2 : DataProcessor.addResultToWeekData wd r =
      { wd with weeklyData := DataProcessor.sortByRank (wd.weeklyData ++ r.extracted) } := by
    rw [DataProcessor.addResultToWeekData, if_pos hday]
  rw [h2]
  refine ⟨rfl, sortK_perm _ _, sortK_pairwise _ _, ?_⟩
  intro e
  have hc := (sortK_perm RankingEntry.rank (wd.weeklyData ++ r.extracted)).count_eq e
  simp only [DataProcessor.sortByRank]
  rw [hc, List.count_append]

/-- The summary bucket already holding a rank-1 record. -/
def c3wd : WeekData :=
  { weekNumber := 1, weekDate := "2024-01-01", dailyData := [],
    weeklyData := [⟨1, "A", 10⟩] }

/-- A Weekly entry carrying a second rank-1 record with a different
name. -/
def c3res : ProcessingResult := resOk "week1" "Weekly" [⟨1, "B", 20⟩]

/-- Witness for C3: pooling two Weekly entries that both carry rank 1
keeps both rank-1 records. -/
theorem c3_weekly_nondedup_witness :
    DataProcessor.normalizeDayName c3res.file.day = weeklyLabel
    ∧ ((DataProcessor.addResultToWeekData c3wd c3res).dailyData = c3wd.dailyData
      ∧ ((DataProcessor.addResultToWeekData c3wd c3res).weeklyData).Perm
          (c3wd.weeklyData ++ c3res.extracted)
      ∧ ((DataProcessor.addResultToWeekData c3wd c3res).weeklyData).Pairwise
          (fun a b => a.rank ≤ b.rank)
      ∧ ∀ e : RankingEntry, ((DataProcessor.addResultToWeekData c3wd c3res).weeklyData).count e =
          c3wd.weeklyData.count e + c3res.extracted.count e)
    ∧ (DataProcessor.addResultToWeekData c3wd c3res).weeklyData =
        [⟨1, "A", 10⟩, ⟨1, "B", 20⟩] :=
  ⟨by decide, c3_weekly_nondedup c3wd c3res (by decide), by decide⟩

/-! ## Claim C4 -/

/-- C4: processResults fails with its empty-input error exactly when
every outcome in the batch is a failure, and on success the metadata
counts exactly the successful entries (one period in all cases). -/
theorem c4_empty_input_and_count (results : List ProcessingResult) (now : String) :
    (DataProcessor.processResults results now =
        Except.error "No successful results to process"
      ↔ ∀ r ∈ results, r.success = false)
    ∧ ∀ d, DataProcessor.processResults results now = Except.ok d →
        d.metadata.totalScreenshots = (results.filter (fun r => r.success)).length
        ∧ d.metadata.totalWeeks = 1 := by
  by_cases hz : (results.filter (fun r => r.success)).length = 0
  · constructor
    · rw [DataProcessor.processResults]
      rw [if_pos hz]
      simp only [true_iff]
      intro r hr
      have hfil : results.filter (fun r => r.success) = [] := List.length_eq_zero.mp hz
      by_contra hcon
      have hsucc : r.success = true := by
        cases hs : r.success with
        | true => rfl
        | false => exact absurd hs hcon
      have : r ∈ results.filter (fun r => r.success) := List.mem_filter.mpr ⟨hr, hsucc⟩
      rw [hfil] at this
      exact absurd this (List.not_mem_nil r)
    · intro d hd
      rw [DataProcessor.processResults] at hd
      rw [if_pos hz] at hd
      exact absurd hd (by simp)
  · constructor
    · rw [DataProcessor.processResults]
      rw [if_neg hz]
      simp only
      constructor
      · intro hcon
        exact absurd hcon (by simp)
      · intro hall
        exfalso
        apply hz
        rw [List.length_eq_zero, List.filter_eq_nil_iff]
        intro r hr
        rw [hall r hr]
        simp
    · intro d hd
      rw [DataProcessor.processResults] at hd
      rw [if_neg hz] at hd
      simp only [Except.ok.injEq] at hd
      rw [← hd]
      exact ⟨rfl, rfl⟩

/-- A batch with one failure and one success. -/
def c4batch : List ProcessingResult :=
  [resFail "week1" "Monday", resOk "week1" "Monday" [⟨1, "A", 10⟩]]

/-- Witness for C4: an all-failed batch errors, and the mixed batch
counts one screenshot, not two. -/
theorem c4_empty_input_and_count_witness :
    (DataProcessor.processResults [resFail "week1" "Monday"] "T" =
      Except.error "No successful results to process")
    ∧ ∀ d, DataProcessor.processResults c4batch "T" = Except.ok d →
        d.metadata.totalScreenshots = (c4batch.filter (fun r => r.success)).length
        ∧ d.metadata.totalWeeks = 1 :=
  ⟨(c4_empty_input_and_count [resFail "week1" "Monday"] "T").1.mpr (by decide),
   fun d hd => (c4_empty_input_and_count c4batch "T").2 d hd⟩

/-! ## Claim C5 -/

theorem isDigitChar_iff (c : Char) : isDigitChar c = true ↔ ('0' ≤ c ∧ c ≤ '9') := by
  simp [isDigitChar]

theorem lowEq_iff (a b : Char) : lowEq a b = true ↔ a.toLower = b := by
  simp [lowEq]

theorem isEmpty_false_iff {α : Type} (l : List α) : l.isEmpty = false ↔ l ≠ [] := by
  cases l <;> simp

/-- The anchored digits-required matcher accepts exactly the strings that
decompose as a case-insensitive week followed by one or more digits. -/
theorem matchWeekAnchoredReq_iff (cs : List Char) :
    matchWeekAnchoredReq cs = true ↔
      ∃ w ds : List Char, cs = w ++ ds ∧ w.map Char.toLower = ['w', 'e', 'e', 'k']
        ∧ ds ≠ [] ∧ ∀ c ∈ ds, '0' ≤ c ∧ c ≤ '9' := by
  match cs with
  | [] | [_] | [_, _] | [_, _, _] =>
    constructor
    · intro h
      exact absurd h (by simp [matchWeekAnchoredReq])
    · rintro ⟨w, ds, hcs, hw, hne, hds⟩
      exfalso
      have hwlen : w.length = 4 := by
        have := congrArg List.length hw
        simpa using this
      have hdlen : ds.length ≥ 1 := List.length_pos.mpr hne
      have hcslen := congrArg List.length hcs
      simp [List.length_append, hwlen] at hcslen
      omega
  | a :: b :: c :: d :: rest =>
    constructor
    · intro h
      simp only [matchWeekAnchoredReq, Bool.and_eq_true, lowEq_iff, isEmpty_false_iff,
        Bool.not_eq_true', List.all_eq_true, isDigitChar_iff] at h
      refine ⟨[a, b, c, d], rest, rfl, ?_, h.1.2, h.2⟩
      simp [h.1.1.1.1.1, h.1.1.1.1.2, h.1.1.1.2, h.1.1.2]
    · rintro ⟨w, ds, hcs, hw, hne, hds⟩
      have hwlen : w.length = 4 := by
        have := congrArg List.length hw
        simpa using this
      have hw4 : w = [a, b, c, d] := by
        have h1 : (w ++ ds).take w.length = w := List.take_left w ds
        rw [← hcs, hwlen] at h1
        exact h1.symm.trans rfl
      have hds4 : ds = rest := by
        have h1 : (w ++ ds).drop w.length = ds := List.drop_left w ds
        rw [← hcs, hwlen] at h1
        exact h1.symm.trans rfl
      subst hw4
      subst hds4
      simp only [List.map_cons, List.map_nil, List.cons.injEq, and_true] at hw
      simp only [matchWeekAnchoredReq, Bool.and_eq_true, lowEq_iff, isEmpty_false_iff,
        Bool.not_eq_true', List.all_eq_true, isDigitChar_iff]
      exact ⟨⟨⟨⟨⟨hw.1, hw.2.1⟩, hw.2.2.1⟩, hw.2.2.2⟩, hne⟩, hds⟩

/-- The anchored digits-optional matcher accepts exactly the strings that
decompose as a case-insensitive week followed by zero or more digits. -/
theorem matchWeekAnchoredOpt_iff (cs : List Char) :
    matchWeekAnchoredOpt cs = true ↔
      ∃ w ds : List Char, cs = w ++ ds ∧ w.map Char.toLower = ['w', 'e', 'e', 'k']
        ∧ ∀ c ∈ ds, '0' ≤ c ∧ c ≤ '9' := by
  match cs with
  | [] | [_] | [_, _] | [_, _, _] =>
    constructor
    · intro h
      exact absurd h (by simp [matchWeekAnchoredOpt])
    · rintro ⟨w, ds, hcs, hw, hds⟩
      exfalso
      have hwlen : w.length = 4 := by
        have := congrArg List.length hw
        simpa using this
      have hcslen := congrArg List.length hcs
      simp [List.length_append, hwlen] at hcslen
      omega
  | a :: b :: c :: d :: rest =>
    constructor
    · intro h
      simp only [matchWeekAnchoredOpt, Bool.and_eq_true, lowEq_iff,
        List.all_eq_true, isDigitChar_iff] at h
      refine ⟨[a, b, c, d], rest, rfl, ?_, h.2⟩
      simp [h.1.1.1.1, h.1.1.1.2, h.1.1.2, h.1.2]
    · rintro ⟨w, ds, hcs, hw, hds⟩
      have hwlen : w.length = 4 := by
        have := congrArg List.length hw
        simpa using this
      have hw4 : w = [a, b, c, d] := by
        have h1 : (w ++ ds).take w.length = w := List.take_left w ds
        rw [← hcs, hwlen] at h1
        exact h1.symm.trans rfl
      have hds4 : ds = rest := by
        have h1 : (w ++ ds).drop w.length = ds := List.drop_left w ds
        rw [← hcs, hwlen] at h1
        exact h1.symm.trans rfl
      subst hw4
      subst hds4
      simp only [List.map_cons, List.map_nil, List.cons.injEq, and_true] at hw
      simp only [matchWeekAnchoredOpt, Bool.and_eq_true, lowEq_iff,
        List.all_eq_true, isDigitChar_iff]
      exact ⟨⟨⟨⟨hw.1, hw.2.1⟩, hw.2.2.1⟩, hw.2.2.2⟩, hds⟩

/-- C5 counterexample: the live resolver pattern requires digits, so the
digit-less names week and Week the claim says match are rejected (the
digit-bearing examples do match, and only the unused legacy copy of the
module accepts the digit-less names). -/
theorem c5_counterexample :
    FileSystemUtils.isWeekDirectory "week" = false
    ∧ FileSystemUtils.isWeekDirectory "Week" = false
    ∧ FileSystemUtils.isWeekDirectory "week1" = true
    ∧ FileSystemUtils.isWeekDirectory "WEEK23" = true
    ∧ FileSystemUtils.isWeekDirectoryLegacy "week" = true
    ∧ FileSystemUtils.isWeekDirectoryLegacy "Week" = true := by
  decide

/-- C5 amended: a name matches the live period pattern exactly when it is
the literal token week (case-insensitive) followed by one or more digits
(digits required); the digit-optional reading of the claim matches only
the unused legacy copy of the module. -/
theorem c5_amended (name : String) :
    (FileSystemUtils.isWeekDirectory name = true ↔
      ∃ w ds : List Char, name.data = w ++ ds ∧ w.map Char.toLower = ['w', 'e', 'e', 'k']
        ∧ ds ≠ [] ∧ ∀ c ∈ ds, '0' ≤ c ∧ c ≤ '9')
    ∧ (FileSystemUtils.isWeekDirectoryLegacy name = true ↔
      ∃ w ds : List Char, name.data = w ++ ds ∧ w.map Char.toLower = ['w', 'e', 'e', 'k']
        ∧ ∀ c ∈ ds, '0' ≤ c ∧ c ≤ '9') :=
  ⟨matchWeekAnchoredReq_iff name.data, matchWeekAnchoredOpt_iff name.data⟩

/-- Witness for C5 amended, at the name WEEK23. -/
theorem c5_amended_witness :
    ∃ w ds : List Char, ("WEEK23" : String).data = w ++ ds
      ∧ w.map Char.toLower = ['w', 'e', 'e', 'k']
      ∧ ds ≠ [] ∧ ∀ c ∈ ds, '0' ≤ c ∧ c ≤ '9' :=
  (c5_amended "WEEK23").1.mp (by decide)

/-! ## Claim C6 -/

theorem specLastMax_none {α κ : Type} [LinearOrder κ] (key : α → κ) (l : List α) :
    specLastMax key l = none ↔ l = [] := by
  cases l with
  | nil => simp [specLastMax]
  | cons x xs =>
    simp only [specLastMax]
    cases hs : specLastMax key xs with
    | none => simp
    | some b =>
      by_cases h : key b < key x <;> simp [h]

theorem specLastMax_mem {α κ : Type} [LinearOrder κ] (key : α → κ) (l : List α) (b : α)
    (h : specLastMax key l = some b) : b ∈ l := by
  induction l generalizing b with
  | nil => simp [specLastMax] at h
  | cons x xs ih =>
    simp only [specLastMax] at h
    cases hs : specLastMax key xs with
    | none =>
      rw [hs] at h
      simp only [Option.some.injEq] at h
      exact h ▸ List.mem_cons_self x xs
    | some c =>
      rw [hs] at h
      simp only at h
      by_cases hlt : key c < key x
      · rw [if_pos hlt] at h
        simp only [Option.some.injEq] at h
        exact h ▸ List.mem_cons_self x xs
      · rw [if_neg hlt] at h
        simp only [Option.some.injEq] at h
        exact List.mem_cons_of_mem x (ih b (h ▸ hs))

theorem specLastMax_ub {α κ : Type} [LinearOrder κ] (key : α → κ) (l : List α) (b : α)
    (h : specLastMax key l = some b) : ∀ y ∈ l, key y ≤ key b := by
  induction l generalizing b with
  | nil => simp [specLastMax] at h
  | cons x xs ih =>
    simp only [specLastMax] at h
    cases hs : specLastMax key xs with
    | none =>
      rw [hs] at h
      simp only [Option.some.injEq] at h
      have hxs : xs = [] := (specLastMax_none key xs).mp hs
      subst hxs
      intro y hy
      simp only [List.mem_singleton] at hy
      rw [hy, ← h]
    | some c =>
      rw [hs] at h
      simp only at h
      by_cases hlt : key c < key x
      · rw [if_pos hlt] at h
        simp only [Option.some.injEq] at h
        subst h
        intro y hy
        rcases List.mem_cons.mp hy with hy | hy
        · rw [hy]
        · exact le_of_lt (lt_of_le_of_lt (ih c hs y hy) hlt)
      · rw [if_neg hlt] at h
        simp only [Option.some.injEq] at h
        subst h
        intro y hy
        rcases List.mem_cons.mp hy with hy | hy
        · rw [hy]; exact le_of_not_lt hlt
        · exact ih c hs y hy

/-- The last element of the stable sort is the latest-listed among the
elements with the largest key. -/
theorem sortK_getLast?_eq_specLastMax {α κ : Type} [LinearOrder κ] (key : α → κ)
    (l : List α) : (sortK key l).getLast? = specLastMax key l := by
  induction l with
  | nil => rfl
  | cons x xs ih =>
    simp only [sortK, specLastMax]
    rw [insertK_getLast?]
    cases hs : specLastMax key xs with
    | none =>
      have hxs : xs = [] := (specLastMax_none key xs).mp hs
      subst hxs
      simp [sortK]
    | some b =>
      have hblast : (sortK key xs).getLast? = some b := by rw [ih, hs]
      have hbmem : b ∈ sortK key xs := List.mem_of_mem_getLast? hblast
      have hub : ∀ y ∈ xs, key y ≤ key b := specLastMax_ub key xs b hs
      by_cases hlt : key b < key x
      · have hall : (sortK key xs).all (fun y => key y < key x) = true := by
          rw [List.all_eq_true]
          intro y hy
          have hyx : y ∈ xs := (sortK_perm key xs).mem_iff.mp hy
          simp only [decide_eq_true_eq]
          exact lt_of_le_of_lt (hub y hyx) hlt
        rw [if_pos hall]
        simp only
        rw [if_pos hlt]
      · have hnall : ¬ ((sortK key xs).all (fun y => key y < key x) = true) := by
          intro hcon
          rw [List.all_eq_true] at hcon
          have := hcon b hbmem
          simp only [decide_eq_true_eq] at this
          exact hlt this
        rw [if_neg hnall, hblast]
        simp only
        rw [if_neg hlt]

/-- C6 amended: when the root is not itself a period directory, the
resolver selects, among the subdirectory names matching the period
pattern, the one with the numerically largest trailing digits, and breaks
ties between equal numbers by listing position -- the later-listed name
wins (the sort is stable and the last element is taken) -- not by lexical
order. -/
theorem c6_amended (basePath : String) (entries : List DirEntry) :
    FileSystemUtils.findMostRecentWeekDir basePath entries =
      (specLastMax FileSystemUtils.getWeekNumber
        ((entries.filter (fun e => e.isDir && FileSystemUtils.isWeekDirectory e.name)).map
          DirEntry.name)).map (fun n => joinPath basePath n) := by
  simp only [FileSystemUtils.findMostRecentWeekDir]
  rw [sortK_getLast?_eq_specLastMax]

/-- C6 counterexample: the listings week1 before week01 and week01 before
week1 carry the same set of matching names with equal week numbers, yet
the resolver returns different names for them (the later-listed one),
while the claim's lexical tie-break predicts the same name, week1, for
both listings. -/
theorem c6_counterexample :
    FileSystemUtils.findMostRecentWeekDir "r" [⟨"week1", true⟩, ⟨"week01", true⟩] =
      some "r/week01"
    ∧ FileSystemUtils.findMostRecentWeekDir "r" [⟨"week01", true⟩, ⟨"week1", true⟩] =
      some "r/week1"
    ∧ claimSelectLexMax ["week1", "week01"] = some "week1"
    ∧ claimSelectLexMax ["week01", "week1"] = some "week1"
    ∧ ("r/week01" : String) ≠ "r/week1" := by
  refine ⟨by decide, by decide, by decide, by decide, by decide⟩

/-! ## Claim C7 -/

/-- C7: on every tree (directory listings never repeat a name), a
successful scan returns the located files ordered first by the fixed
category order of the day labels (Monday through Saturday, then Weekly)
and lexically ascending by file name within each category directory. -/
theorem c7_scan_sorted (fs : FSModel)
    (hnd : ∀ p : String, ((fs.listing p).map DirEntry.name).Nodup) :
    ∀ l, FileSystemUtils.scanScreenshotDirectory fs = Except.ok l →
      l.Pairwise (fun a b => FileSystemUtils.dayKey a.day ≤ FileSystemUtils.dayKey b.day
        ∧ (a.day = b.day → a.fileName.data ≤ b.fileName.data)) := by
  intro l hscan
  unfold FileSystemUtils.scanScreenshotDirectory at hscan
  by_cases hex : fs.rootExists = false
  · rw [if_pos hex] at hscan
    exact absurd hscan (by simp)
  rw [if_neg hex] at hscan
  set weekPathOpt :=
    if FileSystemUtils.isWeekDirectory (basename fs.inputPath) then some fs.inputPath
    else FileSystemUtils.findMostRecentWeekDir fs.inputPath (fs.listing fs.inputPath)
    with hwp
  cases hpath : weekPathOpt with
  | none =>
    rw [hpath] at hscan
    exact absurd hscan (by simp)
  | some weekPath =>
    rw [hpath] at hscan
    simp only at hscan
    by_cases hdz : (FileSystemUtils.getDayDirectories (fs.listing weekPath)).length = 0
    · rw [if_pos hdz] at hscan
      exact absurd hscan (by simp)
    rw [if_neg hdz] at hscan
    simp only [Except.ok.injEq] at hscan
    subst hscan
    set weekName := basename weekPath
    set dayDirs := FileSystemUtils.getDayDirectories (fs.listing weekPath) with hdd
    set P : ScreenshotFile → ScreenshotFile → Prop := fun a b =>
      FileSystemUtils.dayKey a.day ≤ FileSystemUtils.dayKey b.day
        ∧ (a.day = b.day → a.fileName.data ≤ b.fileName.data) with hP
    have hday_of_mem : ∀ dd : String, ∀ x ∈ FileSystemUtils.filesOfDay fs weekPath weekName dd,
        x.day = dd := by
      intro dd x hx
      rcases List.mem_map.mp hx with ⟨file, _, hfx⟩
      rw [← hfx]
    have hsorted : dayDirs.Pairwise
        (fun x y => FileSystemUtils.dayKey x ≤ FileSystemUtils.dayKey y) :=
      sortK_pairwise _ _
    have hnodup : dayDirs.Nodup := by
      have hsub : List.Sublist
          (((fs.listing weekPath).filter
            (fun e => e.isDir && FileSystemUtils.isDayDirectory e.name)).map DirEntry.name)
          ((fs.listing weekPath).map DirEntry.name) :=
        List.Sublist.map DirEntry.name (List.filter_sublist _)
      have hnodup0 := (hnd weekPath).sublist hsub
      exact (sortK_perm _ _).nodup_iff.mpr hnodup0
    have hcomb : dayDirs.Pairwise (fun x y =>
        (FileSystemUtils.dayKey x ≤ FileSystemUtils.dayKey y) ∧ x ≠ y) :=
      hsorted.and hnodup
    have hall : ∀ g ∈ dayDirs.map (FileSystemUtils.filesOfDay fs weekPath weekName),
        g.Pairwise P := by
      intro g hg
      rcases List.mem_map.mp hg with ⟨dd, _, hgd⟩
      subst hgd
      unfold FileSystemUtils.filesOfDay
      apply List.Pairwise.map
        (S := P) (R := fun f1 f2 : String => f1.data ≤ f2.data)
      · intro f1 f2 hle
        exact ⟨le_refl _, fun _ => hle⟩
      · exact sortK_pairwise _ _
    have hrel : (dayDirs.map (FileSystemUtils.filesOfDay fs weekPath weekName)).Pairwise
        (fun g1 g2 => ∀ x ∈ g1, ∀ y ∈ g2, P x y) := by
      rw [List.pairwise_map]
      apply hcomb.imp
      intro d1 d2 hd12 x hx y hy
      rw [hP]
      constructor
      · rw [hday_of_mem d1 x hx, hday_of_mem d2 y hy]
        exact hd12.1
      · intro hxy
        exfalso
        apply hd12.2
        rw [← hday_of_mem d1 x hx, ← hday_of_mem d2 y hy, hxy]
    have hL : ((dayDirs.map (FileSystemUtils.filesOfDay fs weekPath weekName)).flatten).Pairwise
        P := List.pairwise_flatten.mpr ⟨hall, hrel⟩
    have hLday : ((dayDirs.map (FileSystemUtils.filesOfDay fs weekPath weekName)).flatten).Pairwise
        (fun a b => FileSystemUtils.dayKey a.day ≤ FileSystemUtils.dayKey b.day) :=
      hL.imp (fun h => h.1)
    have hid := sortK_eq_of_pairwise
      (fun sc : ScreenshotFile => FileSystemUtils.dayKey sc.day) _ hLday
    rw [hid]
    exact hL

/-- A concrete tree for the C7 witness: root shots with week directory
week2 holding day directories Weekly, monday and Tuesday. -/
def c7fs : FSModel :=
  { rootExists := true
    inputPath := "shots"
    listing := fun p =>
      if p = "shots" then [⟨"week2", true⟩, ⟨"notes", false⟩]
      else if p = "shots/week2" then [⟨"Weekly", true⟩, ⟨"monday", true⟩, ⟨"Tuesday", true⟩]
      else []
    fileNames := fun p =>
      if p = "shots/week2/monday" then ["b.png", "a.png", "x.txt"]
      else if p = "shots/week2/Tuesday" then ["c.jpg"]
      else if p = "shots/week2/Weekly" then ["w.png"]
      else []
    statSize := fun _ => 0
    statBirth := fun _ => 0 }

/-- The located files the scan of the witness tree produces. -/
def c7out : List ScreenshotFile :=
  [{ fileName := "a.png", filePath := "shots/week2/monday/a.png", week := "week2",
     day := "monday", size := 0, createdAt := 0 },
   { fileName := "b.png", filePath := "shots/week2/monday/b.png", week := "week2",
     day := "monday", size := 0, createdAt := 0 },
   { fileName := "c.jpg", filePath := "shots/week2/Tuesday/c.jpg", week := "week2",
     day := "Tuesday", size := 0, createdAt := 0 },
   { fileName := "w.png", filePath := "shots/week2/Weekly/w.png", week := "week2",
     day := "Weekly", size := 0, createdAt := 0 }]

/-- Witness for C7: the scan of the concrete tree succeeds and its
output is ordered by category then file name. -/
theorem c7_scan_sorted_witness :
    FileSystemUtils.scanScreenshotDirectory c7fs = Except.ok c7out
    ∧ c7out.Pairwise (fun a b => FileSystemUtils.dayKey a.day ≤ FileSystemUtils.dayKey b.day
        ∧ (a.day = b.day → a.fileName.data ≤ b.fileName.data)) := by
  have hnd : ∀ p : String, ((c7fs.listing p).map DirEntry.name).Nodup := by
    intro p
    show ((if p = "shots" then _ else if p = "shots/week2" then _ else _ :
      List DirEntry).map DirEntry.name).Nodup
    by_cases h1 : p = "shots"
    · rw [if_pos h1]; decide
    · rw [if_neg h1]
      by_cases h2 : p = "shots/week2"
      · rw [if_pos h2]; decide
      · rw [if_neg h2]; decide
  have hok2 : (FileSystemUtils.scanScreenshotDirectory c7fs).toOption = some c7out := by
    decide
  have hok : FileSystemUtils.scanScreenshotDirectory c7fs = Except.ok c7out := by
    cases h : FileSystemUtils.scanScreenshotDirectory c7fs with
    | error e => rw [h] at hok2; exact absurd hok2 (by simp [Except.toOption])
    | ok l =>
      rw [h] at hok2
      simp only [Except.toOption, Option.some.injEq] at hok2
      rw [hok2]
  exact ⟨hok, c7_scan_sorted c7fs hnd c7out hok⟩

/-! ## Claim C8 -/

theorem addResult_preserves_header (wd : WeekData) (r : ProcessingResult) :
    (DataProcessor.addResultToWeekData wd r).weekNumber = wd.weekNumber
    ∧ (DataProcessor.addResultToWeekData wd r).weekDate = wd.weekDate := by
  unfold DataProcessor.addResultToWeekData
  by_cases h : DataProcessor.normalizeDayName r.file.day = weeklyLabel
  · rw [if_pos h]
    exact ⟨rfl, rfl⟩
  · rw [if_neg h]
    cases hf : wd.dailyData.find?
        (fun d => d.day = DataProcessor.normalizeDayName r.file.day) with
    | some dayData => exact ⟨rfl, rfl⟩
    | none => exact ⟨rfl, rfl⟩

theorem foldl_addResult_header (rs : List ProcessingResult) (wd : WeekData) :
    (rs.foldl DataProcessor.addResultToWeekData wd).weekNumber = wd.weekNumber
    ∧ (rs.foldl DataProcessor.addResultToWeekData wd).weekDate = wd.weekDate := by
  induction rs generalizing wd with
  | nil => exact ⟨rfl, rfl⟩
  | cons r rs ih =>
    simp only [List.foldl_cons]
    have h1 := ih (DataProcessor.addResultToWeekData wd r)
    have h2 := addResult_preserves_header wd r
    exact ⟨h1.1.trans h2.1, h1.2.trans h2.2⟩

/-- C8 amended: on a successful batch the period number is the decimal
digits captured from the first successful entry's period label, except
that an empty label falls back to the literal week1 (hence period number
1), and the anchor date is the fixed epoch 2024-01-01 plus
(periodNumber - 1) * 7 days, formatted YYYY-MM-DD; the concrete
evaluations of the claim hold: week12, Week12, WEEK12 give 12 and the
anchor 2024-03-18, and the digit-less week gives 0 and the anchor
2023-12-25. -/
theorem c8_amended (results : List ProcessingResult) (now : String) :
    (∀ d, DataProcessor.processResults results now = Except.ok d →
      d.weeks.map (fun w => (w.weekNumber, w.weekDate)) =
        [(DataProcessor.extractWeekNumber
            (DataProcessor.effectiveWeekName (results.filter (fun r => r.success))),
          DataProcessor.calculateWeekStartDate
            (DataProcessor.effectiveWeekName (results.filter (fun r => r.success))))])
    ∧ DataProcessor.extractWeekNumber "week12" = 12
    ∧ DataProcessor.extractWeekNumber "Week12" = 12
    ∧ DataProcessor.extractWeekNumber "WEEK12" = 12
    ∧ DataProcessor.extractWeekNumber "week" = 0
    ∧ DataProcessor.calculateWeekStartDate "week12" = "2024-03-18"
    ∧ DataProcessor.calculateWeekStartDate "week1" = "2024-01-01"
    ∧ DataProcessor.calculateWeekStartDate "week" = "2023-12-25" := by
  refine ⟨?_, by decide, by decide, by decide, by decide, by decide, by decide, by decide⟩
  intro d hd
  rw [DataProcessor.processResults] at hd
  by_cases hz : (results.filter (fun r => r.success)).length = 0
  · rw [if_pos hz] at hd
    exact absurd hd (by simp)
  · rw [if_neg hz] at hd
    simp only [Except.ok.injEq] at hd
    subst hd
    simp only [List.map_cons, List.map_nil, List.cons.injEq, and_true, Prod.mk.injEq]
    have hh := foldl_addResult_header (results.filter (fun r => r.success))
      { weekNumber := DataProcessor.extractWeekNumber
          (DataProcessor.effectiveWeekName (results.filter (fun r => r.success)))
        weekDate := DataProcessor.calculateWeekStartDate
          (DataProcessor.effectiveWeekName (results.filter (fun r => r.success)))
        dailyData := []
        weeklyData := [] }
    exact ⟨hh.1, hh.2⟩

/-- A successful entry whose period label is the empty string. -/
def c8res : ProcessingResult := resOk "" "Monday" [⟨1, "A", 10⟩]

/-- C8 counterexample: on a batch whose first successful entry has an
empty period label, the claim predicts period number 0 (no digits
captured) and anchor 2023-12-25, but the code falls back to the literal
week1 and produces period number 1 and anchor 2024-01-01. -/
theorem c8_counterexample :
    DataProcessor.extractWeekNumber "" = 0
    ∧ (DataProcessor.processResults [c8res] "T").toOption.map
        (fun d => d.weeks.map (fun w => (w.weekNumber, w.weekDate))) =
      some [((1 : Int), "2024-01-01")]
    ∧ ((1 : Int) ≠ 0)
    ∧ ("2024-01-01" : String) ≠ "2023-12-25" := by
  refine ⟨by decide, by decide, by decide, by decide⟩

/-- Witness for C8 amended, at a one-entry week12 batch. -/
theorem c8_amended_witness :
    ∃ d, DataProcessor.processResults [resOk "week12" "Monday" [⟨1, "A", 10⟩]] "T" =
        Except.ok d
      ∧ d.weeks.map (fun w => (w.weekNumber, w.weekDate)) = [((12 : Int), "2024-03-18")] := by
  have h2 : (DataProcessor.processResults [resOk "week12" "Monday" [⟨1, "A", 10⟩]]
      "T").toOption.isSome = true := by decide
  cases hp : DataProcessor.processResults [resOk "week12" "Monday" [⟨1, "A", 10⟩]] "T" with
  | error e => rw [hp] at h2; simp [Except.toOption] at h2
  | ok d =>
    refine ⟨d, rfl, ?_⟩
    have hmap := (c8_amended [resOk "week12" "Monday" [⟨1, "A", 10⟩]] "T").1 d hp
    rw [hmap]
    decide

/-! ## Claim C9 -/

theorem dedup_length_eq_iff {α : Type} [DecidableEq α] (l : List α) :
    l.dedup.length = l.length ↔ l.Nodup := by
  constructor
  · intro h
    exact List.dedup_eq_self.mp ((List.dedup_sublist l).eq_of_length h)
  · intro h
    rw [List.dedup_eq_self.mpr h]

theorem dayIssues_length (d : DayData) :
    (DataProcessor.dayIssues d).length = dayFailCountSpec d := by
  unfold DataProcessor.dayIssues dayFailCountSpec
  have hcond : ((decide (d.day = "") || !(validDays.contains d.day)) = true) ↔
      (d.day = "" ∨ d.day ∉ validDays) := by
    simp [List.elem_iff]
  by_cases h1 : d.day = "" ∨ d.day ∉ validDays
  · rw [if_pos (hcond.mpr h1), if_pos h1]
    by_cases h2 : d.entries = []
    · have h2l : d.entries.length = 0 := by rw [h2]; rfl
      rw [if_pos h2l, if_pos h2]
      have h3 : ¬ (d.entries ≠ [] ∧ ¬ (d.entries.map RankingEntry.rank).Nodup) := by
        intro hcon; exact hcon.1 h2
      rw [if_neg h3]
      rfl
    · have h2l : ¬ d.entries.length = 0 := by
        intro hcon; exact h2 (List.length_eq_zero.mp hcon)
      rw [if_neg h2l, if_neg h2]
      by_cases h3 : (d.entries.map RankingEntry.rank).dedup.length ≠
          (d.entries.map RankingEntry.rank).length
      · rw [if_pos h3]
        have h3s : d.entries ≠ [] ∧ ¬ (d.entries.map RankingEntry.rank).Nodup := by
          refine ⟨h2, fun hnd => h3 ((dedup_length_eq_iff _).mpr hnd)⟩
        rw [if_pos h3s]
        rfl
      · rw [if_neg h3]
        have h3s : ¬ (d.entries ≠ [] ∧ ¬ (d.entries.map RankingEntry.rank).Nodup) := by
          rintro ⟨-, hnd⟩
          exact hnd ((dedup_length_eq_iff _).mp (not_not.mp h3))
        rw [if_neg h3s]
        rfl
  · rw [if_neg (fun hcon => h1 (hcond.mp hcon)), if_neg h1]
    by_cases h2 : d.entries = []
    · have h2l : d.entries.length = 0 := by rw [h2]; rfl
      rw [if_pos h2l, if_pos h2]
      have h3 : ¬ (d.entries ≠ [] ∧ ¬ (d.entries.map RankingEntry.rank).Nodup) := by
        intro hcon; exact hcon.1 h2
      rw [if_neg h3]
      rfl
    · have h2l : ¬ d.entries.length = 0 := by
        intro hcon; exact h2 (List.length_eq_zero.mp hcon)
      rw [if_neg h2l, if_neg h2]
      by_cases h3 : (d.entries.map RankingEntry.rank).dedup.length ≠
          (d.entries.map RankingEntry.rank).length
      · rw [if_pos h3]
        have h3s : d.entries ≠ [] ∧ ¬ (d.entries.map RankingEntry.rank).Nodup := by
          refine ⟨h2, fun hnd => h3 ((dedup_length_eq_iff _).mpr hnd)⟩
        rw [if_pos h3s]
        rfl
      · rw [if_neg h3]
        have h3s : ¬ (d.entries ≠ [] ∧ ¬ (d.entries.map RankingEntry.rank).Nodup) := by
          rintro ⟨-, hnd⟩
          exact hnd ((dedup_length_eq_iff _).mp (not_not.mp h3))
        rw [if_neg h3s]
        rfl

theorem dayFailCountSpec_zero_iff (d : DayData) :
    dayFailCountSpec d = 0 ↔
      (d.day ∈ validDays ∧ d.entries ≠ [] ∧ (d.entries.map RankingEntry.rank).Nodup) := by
  have hempty : ("" : String) ∉ validDays := by decide
  unfold dayFailCountSpec
  by_cases h1 : d.day = "" ∨ d.day ∉ validDays
  · rw [if_pos h1]
    constructor
    · intro hcon
      exact absurd hcon (by omega)
    · rintro ⟨hmem, -, -⟩
      exfalso
      rcases h1 with h1 | h1
      · rw [h1] at hmem; exact hempty hmem
      · exact h1 hmem
  · rw [if_neg h1]
    push_neg at h1
    by_cases h2 : d.entries = []
    · rw [if_pos h2]
      constructor
      · intro hcon
        exact absurd hcon (by omega)
      · rintro ⟨-, hne, -⟩
        exact absurd h2 hne
    · rw [if_neg h2]
      by_cases h3 : d.entries ≠ [] ∧ ¬ (d.entries.map RankingEntry.rank).Nodup
      · rw [if_pos h3]
        constructor
        · intro hcon
          exact absurd hcon (by omega)
        · rintro ⟨-, -, hnd⟩
          exact absurd hnd h3.2
      · rw [if_neg h3]
        constructor
        · intro hz
          refine ⟨h1.2, h2, ?_⟩
          by_contra hnd
          exact h3 ⟨h2, hnd⟩
        · intro hdone
          rfl

/-- C9: the validator is a total function returning its valid flag and
issue list; the flag is true exactly when the list is empty, each failing
check contributes exactly one message (so the list length is the number
of failing checks, later checks running whatever the earlier ones did),
and the flag is true exactly when the six spec checks all pass. -/
theorem c9_validate (wd : WeekData) :
    ((DataProcessor.validateWeekData wd).valid = true ↔
      (DataProcessor.validateWeekData wd).issues = [])
    ∧ (DataProcessor.validateWeekData wd).issues.length = validateFailCountSpec wd
    ∧ ((DataProcessor.validateWeekData wd).valid = true ↔ validateValidSpec wd) := by
  have hlen : (DataProcessor.validateWeekData wd).issues.length = validateFailCountSpec wd := by
    unfold DataProcessor.validateWeekData validateFailCountSpec
    simp only [List.length_append]
    have e1 : (if wd.weekNumber ≤ 0 then
        ["Invalid week number: " ++ toString wd.weekNumber] else []).length =
        (if wd.weekNumber ≤ 0 then 1 else 0) := by
      by_cases h : wd.weekNumber ≤ 0 <;> simp [h]
    have e2 : (if wd.weekDate = "" then ["Missing week date"] else []).length =
        (if wd.weekDate = "" then 1 else 0) := by
      by_cases h : wd.weekDate = "" <;> simp [h]
    have e3 : (if wd.dailyData.length = 0 then ["No daily data found"]
        else (wd.dailyData.map DataProcessor.dayIssues).flatten).length =
        ((if wd.dailyData = [] then 1 else 0) + (wd.dailyData.map dayFailCountSpec).sum) := by
      by_cases h : wd.dailyData = []
      · have hl : wd.dailyData.length = 0 := by rw [h]; rfl
        rw [if_pos hl, if_pos h, h]
        rfl
      · have hl : ¬ wd.dailyData.length = 0 := by
          intro hcon; exact h (List.length_eq_zero.mp hcon)
        rw [if_neg hl, if_neg h]
        rw [List.length_flatten]
        simp only [List.map_map, Nat.zero_add]
        congr 1
        apply List.map_congr_left
        intro d hd
        exact dayIssues_length d
    rw [e1, e2, e3]
    omega
  have hvalid : (DataProcessor.validateWeekData wd).valid = true ↔
      (DataProcessor.validateWeekData wd).issues = [] := by
    unfold DataProcessor.validateWeekData
    simp [List.isEmpty_iff]
  refine ⟨hvalid, hlen, hvalid.trans ?_⟩
  rw [← List.length_eq_zero, hlen]
  unfold validateFailCountSpec validateValidSpec
  constructor
  · intro hsum
    have h1 : ¬ wd.weekNumber ≤ 0 := by
      by_contra h; rw [if_pos h] at hsum; omega
    rw [if_neg h1] at hsum
    have h2 : ¬ wd.weekDate = "" := by
      by_contra h; rw [if_pos h] at hsum; omega
    rw [if_neg h2] at hsum
    have h3 : ¬ wd.dailyData = [] := by
      by_contra h; rw [if_pos h] at hsum; omega
    rw [if_neg h3] at hsum
    refine ⟨by omega, h2, h3, ?_⟩
    intro d hd
    have hz : dayFailCountSpec d = 0 := by
      have : (wd.dailyData.map dayFailCountSpec).sum = 0 := by omega
      have hmem : dayFailCountSpec d ∈ wd.dailyData.map dayFailCountSpec :=
        List.mem_map.mpr ⟨d, hd, rfl⟩
      exact List.sum_eq_zero_iff.mp this _ hmem
    exact (dayFailCountSpec_zero_iff d).mp hz
  · rintro ⟨h1, h2, h3, hall⟩
    rw [if_neg (by omega : ¬ wd.weekNumber ≤ 0), if_neg h2, if_neg h3]
    have hsum : (wd.dailyData.map dayFailCountSpec).sum = 0 := by
      apply List.sum_eq_zero
      intro x hx
      rcases List.mem_map.mp hx with ⟨d, hd, hdx⟩
      rw [← hdx]
      exact (dayFailCountSpec_zero_iff d).mpr (hall d hd)
    omega

/-- A malformed period for the C9 witness: week number 0, empty date, a
bucket with a bad label and duplicate ranks, and an empty bucket. -/
def c9wd : WeekData :=
  { weekNumber := 0, weekDate := "",
    dailyData := [{ day := "Funday", entries := [⟨1, "A", 10⟩, ⟨1, "B", 20⟩] },
                  { day := "Monday", entries := [] }],
    weeklyData := [] }

/-- Witness for C9 at the malformed period: validation reports invalid
with one message per failing check (five in total), and the equivalences
hold there. -/
theorem c9_validate_witness :
    ((DataProcessor.validateWeekData c9wd).valid = true ↔
      (DataProcessor.validateWeekData c9wd).issues = [])
    ∧ (DataProcessor.validateWeekData c9wd).issues.length = validateFailCountSpec c9wd
    ∧ ((DataProcessor.validateWeekData c9wd).valid = true ↔ validateValidSpec c9wd) :=
  c9_validate c9wd

/-! ## Claim C10 -/

namespace HeapModel

theorem readArr_writeArr_ne (s : Store) (i j : Nat) (v : List RankingEntry) (h : j ≠ i) :
    readArr (writeArr s j v) i = readArr s i := by
  unfold readArr writeArr
  rw [List.getD_eq_getElem?_getD, List.getD_eq_getElem?_getD, List.getElem?_set_ne h]

theorem readArr_append (s : Store) (i : Nat) (h : i < s.length) (v : List RankingEntry) :
    readArr (s ++ [v]) i = readArr s i := by
  unfold readArr
  rw [List.getD_eq_getElem?_getD, List.getD_eq_getElem?_getD, List.getElem?_append_left h]

/-- All container ids of a week structure point at or beyond a store
bound. -/
def WFIds (n : Nat) (wd : WeekDataR) : Prop :=
  n ≤ wd.weeklyId ∧ ∀ dd ∈ wd.dailyData, n ≤ dd.entriesId

theorem addResultToWeekDataR_frame (n : Nat) (s : Store) (wd : WeekDataR)
    (r : ProcessingResultR) (hlen : n ≤ s.length) (hwf : WFIds n wd) :
    n ≤ (addResultToWeekDataR s wd r).1.length
    ∧ (∀ i, i < n → readArr (addResultToWeekDataR s wd r).1 i = readArr s i)
    ∧ WFIds n (addResultToWeekDataR s wd r).2 := by
  unfold addResultToWeekDataR
  by_cases hday : DataProcessor.normalizeDayName r.file.day = weeklyLabel
  · rw [if_pos hday]
    refine ⟨?_, ?_, hwf⟩
    · simp only [writeArr, List.length_set]
      exact hlen
    · intro i hi
      apply readArr_writeArr_ne
      have := hwf.1
      omega
  · rw [if_neg hday]
    cases hf : wd.dailyData.find?
        (fun d => d.day = DataProcessor.normalizeDayName r.file.day) with
    | some dayData =>
      simp only
      have hmem : dayData ∈ wd.dailyData := List.mem_of_find?_eq_some hf
      have hid : n ≤ dayData.entriesId := hwf.2 dayData hmem
      refine ⟨?_, ?_, hwf⟩
      · simp only [writeArr, List.length_set]
        exact hlen
      · intro i hi
        apply readArr_writeArr_ne
        omega
    | none =>
      simp only [allocArr]
      constructor
      · simp only [writeArr, List.length_set, List.length_append]
        omega
      constructor
      · intro i hi
        have h1 : readArr (writeArr (s ++ [[]]) s.length
            (DataProcessor.sortByRank (readArr (s ++ [[]]) s.length ++
              (readArr s r.extractedId).filter (fun e : RankingEntry =>
                !((readArr (s ++ [[]]) s.length).map RankingEntry.rank).contains e.rank)))) i =
            readArr (s ++ [[]]) i := by
          apply readArr_writeArr_ne
          omega
        rw [h1, readArr_append s i (by omega)]
      · constructor
        · exact hwf.1
        · intro dd hdd
          rcases List.mem_append.mp hdd with hdd | hdd
          · exact hwf.2 dd hdd
          · simp only [List.mem_singleton] at hdd
            rw [hdd]
            exact hlen

theorem foldR_frame (rs : List ProcessingResultR) (n : Nat) :
    ∀ (s : Store) (wd : WeekDataR), n ≤ s.length → WFIds n wd →
      n ≤ (rs.foldl (fun acc r => addResultToWeekDataR acc.1 acc.2 r) (s, wd)).1.length
      ∧ (∀ i, i < n →
          readArr (rs.foldl (fun acc r => addResultToWeekDataR acc.1 acc.2 r) (s, wd)).1 i =
            readArr s i)
      ∧ WFIds n (rs.foldl (fun acc r => addResultToWeekDataR acc.1 acc.2 r) (s, wd)).2 := by
  induction rs with
  | nil =>
    intro s wd hlen hwf
    exact ⟨hlen, fun i _ => rfl, hwf⟩
  | cons r rs ih =>
    intro s wd hlen hwf
    simp only [List.foldl_cons]
    have hstep := addResultToWeekDataR_frame n s wd r hlen hwf
    have hrest := ih (addResultToWeekDataR s wd r).1 (addResultToWeekDataR s wd r).2
      hstep.1 hstep.2.2
    refine ⟨hrest.1, ?_, hrest.2.2⟩
    intro i hi
    rw [hrest.2.1 i hi, hstep.2.1 i hi]

end HeapModel

/-- C10: processResults does not mutate its input. In the heap model,
every record array the input results reference (every store index below
the initial store length) holds the same record sequence after the call,
and every container of the returned period -- the weekly bucket and each
daily bucket -- is a freshly allocated array (its index is at or beyond
the initial store length). The file descriptors, success flags and
errors are plain values here because dataProcessor.ts never assigns to a
field of a result, so the only effects are the pushes and in-place sorts
on arrays, which the store tracks. -/
theorem c10_no_input_mutation (s : HeapModel.Store) (results : List HeapModel.ProcessingResultR)
    (now : String) :
    (∀ i, i < s.length →
      HeapModel.readArr (HeapModel.processResultsR s results now).1 i = HeapModel.readArr s i)
    ∧ (∀ d, (HeapModel.processResultsR s results now).2 = Except.ok d →
        ∀ w ∈ d.weeks, s.length ≤ w.weeklyId
          ∧ ∀ dd ∈ w.dailyData, s.length ≤ dd.entriesId) := by
  unfold HeapModel.processResultsR
  by_cases hz : (results.filter (fun r => r.success)).length = 0
  · rw [if_pos hz]
    exact ⟨fun i _ => rfl, fun d hd => absurd hd (by simp)⟩
  · rw [if_neg hz]
    simp only [HeapModel.allocArr]
    have hwf0 : HeapModel.WFIds s.length
        { weekNumber := DataProcessor.extractWeekNumber
            (match (results.filter (fun r => r.success)).head? with
              | some r => if r.file.week = "" then "week1" else r.file.week
              | none => "week1")
          weekDate := DataProcessor.calculateWeekStartDate
            (match (results.filter (fun r => r.success)).head? with
              | some r => if r.file.week = "" then "week1" else r.file.week
              | none => "week1")
          dailyData := []
          weeklyId := s.length } := by
      constructor
      · exact le_refl _
      · intro dd hdd
        simp at hdd
    have hlen0 : s.length ≤ (s ++ [[]]).length := by
      simp
    have hfold := HeapModel.foldR_frame (results.filter (fun r => r.success)) s.length
      (s ++ [[]]) _ hlen0 hwf0
    constructor
    · intro i hi
      rw [hfold.2.1 i hi, HeapModel.readArr_append s i hi]
    · intro d hd
      simp only [Except.ok.injEq] at hd
      subst hd
      intro w hw
      simp only [List.mem_singleton] at hw
      subst hw
      constructor
      · exact hfold.2.2.1
      · intro dd hdd
        have hmem : dd ∈ ((results.filter (fun r => r.success)).foldl
            (fun acc r => HeapModel.addResultToWeekDataR acc.1 acc.2 r)
            (s ++ [[]], _)).2.dailyData :=
          (sortK_perm (fun d => DataProcessor.dayOrderRaw d.day) _).mem_iff.mp hdd
        exact hfold.2.2.2 dd hmem

/-- A store with one input array, referenced by the single successful
result. -/
def c10store : HeapModel.Store := [[⟨1, "A", 10⟩]]

/-- The single successful result of the C10 witness, referencing array
0. -/
def c10res : HeapModel.ProcessingResultR :=
  { file := sampleFile "week1" "Monday" "s.png", extractedId := 0, success := true,
    error := none, processingTime := 0 }

/-- Witness for C10: after processing, input array 0 is unchanged and the
returned containers are fresh. -/
theorem c10_no_input_mutation_witness :
    HeapModel.readArr (HeapModel.processResultsR c10store [c10res] "T").1 0 =
      HeapModel.readArr c10store 0
    ∧ ∀ d, (HeapModel.processResultsR c10store [c10res] "T").2 = Except.ok d →
        ∀ w ∈ d.weeks, c10store.length ≤ w.weeklyId
          ∧ ∀ dd ∈ w.dailyData, c10store.length ≤ dd.entriesId :=
  ⟨(c10_no_input_mutation c10store [c10res] "T").1 0 (by decide),
   (c10_no_input_mutation c10store [c10res] "T").2⟩

end LastWar
